import Mathlib

/-!
Verification development for the DSA-prep MCP server (src/main.py).

The server keeps two SQLite tables, `problems` and `notes`, and exposes four
tool handlers: `add_problem`, `get_revision_sheet`, `get_progress_stats` and
`save_revision_note`.  We embed the database tables as Lean lists (rows in
rowid/insertion order, as SQLite scans them), tool responses as association
lists from string keys to a JSON-like value type, and a possible store
failure (an exception raised by sqlite) as `Except String`: `.error e` is the
caught exception message, `.ok` carries the table contents the query saw.
String comparisons follow SQLite defaults: TEXT equality and ordering are
byte-wise (BINARY collation), while `LIKE` is ASCII case-insensitive.
Python-level behaviours that the handlers rely on (`str.capitalize`, the
truthiness test `if topic:`, `x or 0`) are embedded over ASCII strings.
-/

/-- A row of the `problems` table: `id INTEGER PRIMARY KEY AUTOINCREMENT`,
`title`, `topic`, `difficulty` TEXT, `solve_date DATE`. -/
structure Problem where
  id : Nat
  title : String
  topic : String
  difficulty : String
  solve_date : String
deriving DecidableEq

/-- JSON-like values appearing in the tool responses. -/
inductive Val where
  | str : String → Val
  | int : Int → Val
  | arr : List Val → Val
  | obj : List (String × Val) → Val

/-- A tool response: the Python dict returned by a handler, as an ordered
association list of keys and values. -/
abbrev Resp := List (String × Val)

/-- ASCII lower-casing of one character, as SQLite's `LIKE` and Python's
`str.lower` treat ASCII letters. -/
def lowerChar (c : Char) : Char :=
  if 'A' ≤ c ∧ c ≤ 'Z' then Char.ofNat (c.toNat + 32) else c

/-- ASCII upper-casing of one character. -/
def upperChar (c : Char) : Char :=
  if 'a' ≤ c ∧ c ≤ 'z' then Char.ofNat (c.toNat - 32) else c

/-- Python `str.capitalize()` on ASCII strings: first character upper-cased,
all remaining characters lower-cased.  Used by `add_problem` on the
`difficulty` argument (src/main.py line 77). -/
def pyCapitalize (s : String) : String :=
  match s.data with
  | [] => ""
  | c :: cs => String.mk (upperChar c :: cs.map lowerChar)

/-- SQLite `LIKE` pattern matching (ASCII case-insensitive, default
`case_sensitive_like` off): `%` matches any sequence, `_` matches any one
character, any other pattern character matches case-insensitively. -/
def likeMatchL : List Char → List Char → Bool
  | [], s => s.isEmpty
  | p :: ps, s =>
    if p = '%' then
      likeMatchL ps s ||
        (match s with
         | [] => false
         | _ :: t => likeMatchL (p :: ps) t)
    else
      match s with
      | [] => false
      | c :: t => (if p = '_' then true else lowerChar p == lowerChar c) && likeMatchL ps t
termination_by p s => (p.length, s.length)

/-- The filter used by `get_revision_sheet`:
`topic LIKE ?` with parameter `%{filter}%` (src/main.py lines 97-98). -/
def sqlLikeContains (filt cat : String) : Bool :=
  likeMatchL ('%' :: filt.data ++ ['%']) cat.data

/-- Lexicographic strict order on character lists by code point: SQLite's
BINARY collation on TEXT values (for the ASCII dates stored here, byte order
and code-point order agree). -/
def charListLt : List Char → List Char → Bool
  | _, [] => false
  | [], _ :: _ => true
  | a :: as, b :: bs =>
    if a.toNat < b.toNat then true
    else if b.toNat < a.toNat then false
    else charListLt as bs

/-- SQLite TEXT comparison of two stored strings (BINARY collation). -/
def dateLt (a b : String) : Bool :=
  charListLt a.data b.data

/-- One step of the stable sort modelling `ORDER BY solve_date DESC`:
insert a row in front of the first already-placed row whose date is not
later than its own.  SQLite compares the TEXT dates byte-wise. -/
def insertDesc (r : Problem) : List Problem → List Problem
  | [] => [r]
  | e :: rest => if dateLt r.solve_date e.solve_date then e :: insertDesc r rest else r :: e :: rest

/-- Model of `ORDER BY solve_date DESC` over a table scanned in rowid order,
a stable sort: rows with equal dates keep their scan order.  The query in
src/main.py line 97 has no secondary sort key. -/
def sortDesc : List Problem → List Problem
  | [] => []
  | r :: rest => insertDesc r (sortDesc rest)

/-- Python truthiness of the `Optional[str]` argument `topic`:
`None` and the empty string are falsy (src/main.py line 96 `if topic:`). -/
def pyTruthy : Option String → Bool
  | none => false
  | some s => !s.isEmpty

/-- The row list produced by `get_revision_sheet`: when the `topic` argument
is truthy the rows are filtered with `topic LIKE '%...%'`, then ordered by
`solve_date DESC` (src/main.py lines 96-101). -/
def getRevisionSheetRows (rs : List Problem) (topic : Option String) : List Problem :=
  match topic with
  | some t => if t.isEmpty then sortDesc rs else sortDesc (rs.filter (fun r => sqlLikeContains t r.topic))
  | none => sortDesc rs

/-- Field-for-field `dict(row)` encoding of one problem row. -/
def problemVal (p : Problem) : Val :=
  Val.obj [("id", Val.int p.id), ("title", Val.str p.title), ("topic", Val.str p.topic),
    ("difficulty", Val.str p.difficulty), ("solve_date", Val.str p.solve_date)]

/-- The `get_revision_sheet` handler (src/main.py lines 86-107): on success it
returns `{"problems": [...]}`; a store failure is caught and returned as
`{"status": "error", "message": str(e)}`. -/
def getRevisionSheet (db : Except String (List Problem)) (topic : Option String) : Resp :=
  match db with
  | Except.error e => [("status", Val.str "error"), ("message", Val.str e)]
  | Except.ok rs => [("problems", Val.arr ((getRevisionSheetRows rs topic).map problemVal))]

/-- Embedding of `SELECT difficulty, COUNT(*) FROM problems GROUP BY difficulty`
(src/main.py line 119): one pair per distinct difficulty value actually
present, with its row count.  SQLite leaves the group order unspecified; we
list each distinct difficulty once (`dedup`), the order being immaterial. -/
def breakdownOf (rs : List Problem) : List (String × Nat) :=
  ((rs.map (fun r => r.difficulty)).dedup).map
    (fun d => (d, rs.countP (fun r => r.difficulty == d)))

/-- Embedding of `SUM(CASE WHEN solve_date = ? THEN 1 ELSE 0 END)` (line 124):
SQL `SUM` over an empty table is NULL (`none`); otherwise the number of rows
whose `solve_date` equals the reference date. -/
def sqlSumToday (rs : List Problem) (today : String) : Option Int :=
  if rs.isEmpty then none else some (rs.countP (fun r => r.solve_date == today) : Nat)

/-- Python `x or 0` applied to a nullable integer column value
(src/main.py lines 128-129): `None` and `0` are falsy and give `0`. -/
def pyOrZero : Option Int → Int
  | none => 0
  | some n => if n = 0 then 0 else n

/-- The `get_progress_stats` handler (src/main.py lines 110-133): difficulty
breakdown from the GROUP BY query, `total_solved` from `COUNT(*)` and
`solved_today` from the conditional SUM, each passed through `or 0`; a store
failure is caught and returned as `{"status": "error", "message": str(e)}`. -/
def getProgressStats (db : Except String (List Problem)) (today : String) : Resp :=
  match db with
  | Except.error e => [("status", Val.str "error"), ("message", Val.str e)]
  | Except.ok rs =>
    [("total_solved", Val.int (pyOrZero (some (rs.length : Nat)))),
     ("solved_today", Val.int (pyOrZero (sqlSumToday rs today))),
     ("breakdown", Val.obj ((breakdownOf rs).map (fun p => (p.1, Val.int (p.2 : Nat)))))]

/-- The rowid AUTOINCREMENT assigns the next id above every id in the table
(no deletes ever happen in this server, so the maximum present suffices). -/
def nextId (rs : List Problem) : Nat :=
  rs.foldr (fun r m => max r.id m) 0 + 1

/-- The `add_problem` handler (src/main.py lines 64-83): inserts a row whose
difficulty is `difficulty.capitalize()` and whose date is the current date,
returning the new store and `{"status", "id", "message"}`; a store failure is
caught and returned as `{"status": "error", "message": str(e)}`, leaving the
store as the failed transaction left it (unchanged). -/
def addProblem (db : Except String (List Problem)) (title topic difficulty today : String) :
    Except String (List Problem) × Resp :=
  match db with
  | Except.error e => (Except.error e, [("status", Val.str "error"), ("message", Val.str e)])
  | Except.ok rs =>
    let p : Problem := ⟨nextId rs, title, topic, pyCapitalize difficulty, today⟩
    (Except.ok (rs ++ [p]),
     [("status", Val.str "success"), ("id", Val.int (p.id : Nat)),
      ("message", Val.str ("Logged " ++ title))])

/-- A note row, projected to the two columns the handler touches: the UNIQUE
`topic` key and the `content` (src/main.py lines 44-51; `id` and
`updated_at` carry no information the claims mention). -/
abbrev NotesTable := List (String × String)

/-- Embedding of the notes upsert statement `INSERT INTO notes ... ON CONFLICT(topic) DO UPDATE`
(src/main.py lines 146-152): if a row with this exact topic exists (BINARY
collation on the UNIQUE column) its content is replaced in place, otherwise a
new row is appended. -/
def upsertNote (notes : NotesTable) (topic content : String) : NotesTable :=
  if notes.any (fun p => p.1 == topic) then
    notes.map (fun p => if p.1 == topic then (topic, content) else p)
  else
    notes ++ [(topic, content)]

/-- The `save_revision_note` handler (src/main.py lines 136-156): upserts the
note and returns `{"status": "success", "message": ...}`; a store failure is
caught and returned as `{"status": "error", "message": str(e)}`. -/
def saveRevisionNote (db : Except String NotesTable) (topic content : String) :
    Except String NotesTable × Resp :=
  match db with
  | Except.error e => (Except.error e, [("status", Val.str "error"), ("message", Val.str e)])
  | Except.ok notes =>
    (Except.ok (upsertNote notes topic content),
     [("status", Val.str "success"), ("message", Val.str ("Notes updated for " ++ topic))])

/-! ### Basic facts about the embedded primitives -/

theorem charToNat_inj {a b : Char} (h : a.toNat = b.toNat) : a = b := by
  cases a; cases b
  congr 1
  exact UInt32.eq_of_toBitVec_eq (BitVec.toNat_injective h)

theorem stringData_inj {s t : String} (h : s.data = t.data) : s = t := by
  cases s; cases t; exact congrArg String.mk h

theorem charListLt_total :
    ∀ a b : List Char, charListLt a b = false → a = b ∨ charListLt b a = true
  | [], [] => fun _ => Or.inl rfl
  | [], _ :: _ => fun h => by simp [charListLt] at h
  | _ :: _, [] => fun _ => Or.inr (by simp [charListLt])
  | x :: xs, y :: ys => fun h => by
    by_cases hxy : x.toNat < y.toNat
    · simp [charListLt, hxy] at h
    · by_cases hyx : y.toNat < x.toNat
      · exact Or.inr (by simp [charListLt, hyx])
      · have hx : x = y := charToNat_inj (Nat.le_antisymm (Nat.le_of_not_lt hyx) (Nat.le_of_not_lt hxy))
        subst hx
        rw [charListLt] at h
        simp only [if_neg hxy, if_neg hyx] at h
        rcases charListLt_total xs ys h with h1 | h1
        · exact Or.inl (by rw [h1])
        · refine Or.inr ?_
          rw [charListLt]
          simp only [if_neg hxy, if_neg hyx]
          exact h1

theorem charListLt_trans :
    ∀ a b c : List Char, charListLt a b = true → charListLt b c = true → charListLt a c = true
  | _, _, [] => fun _ h2 => by simp [charListLt] at h2
  | [], _ :: _, _ :: _ => fun _ _ => by simp [charListLt]
  | _ :: _, [], _ :: _ => fun h1 _ => by simp [charListLt] at h1
  | [], [], _ :: _ => fun h1 _ => by simp [charListLt] at h1
  | x :: xs, y :: ys, z :: zs => fun h1 h2 => by
    rw [charListLt] at h1 h2 ⊢
    by_cases hxy : x.toNat < y.toNat
    · by_cases hyz : y.toNat < z.toNat
      · simp [Nat.lt_trans hxy hyz]
      · by_cases hzy : z.toNat < y.toNat
        · simp [if_neg hyz, if_neg (Nat.lt_asymm hzy), hzy] at h2
        · have hy : y = z := charToNat_inj (Nat.le_antisymm (Nat.le_of_not_lt hzy) (Nat.le_of_not_lt hyz))
          subst hy
          simp [hxy]
    · by_cases hyx : y.toNat < x.toNat
      · simp [if_neg hxy, hyx] at h1
      · have hx : x = y := charToNat_inj (Nat.le_antisymm (Nat.le_of_not_lt hyx) (Nat.le_of_not_lt hxy))
        subst hx
        simp only [if_neg hxy, if_neg hyx] at h1 ⊢
        by_cases hxz : x.toNat < z.toNat
        · simp [hxz]
        · by_cases hzx : z.toNat < x.toNat
          · simp [if_neg hxz, if_neg (Nat.lt_asymm hzx), hzx] at h2
          · have hx2 : x = z := charToNat_inj (Nat.le_antisymm (Nat.le_of_not_lt hzx) (Nat.le_of_not_lt hxz))
            subst hx2
            simp only [if_neg hxz, if_neg hzx] at h2 ⊢
            exact charListLt_trans xs ys zs h1 h2

theorem dateLt_total {a b : String} (h : dateLt a b = false) : a = b ∨ dateLt b a = true := by
  rcases charListLt_total a.data b.data h with h1 | h1
  · exact Or.inl (stringData_inj h1)
  · exact Or.inr h1

theorem dateLt_trans {a b c : String} (h1 : dateLt a b = true) (h2 : dateLt b c = true) :
    dateLt a c = true :=
  charListLt_trans a.data b.data c.data h1 h2

/-- The order actually realised by the list output: strictly later dates
first, and rows sharing a date in ascending id (scan) order. -/
def outOrder (a b : Problem) : Prop :=
  dateLt b.solve_date a.solve_date = true ∨ (a.solve_date = b.solve_date ∧ a.id < b.id)

theorem insertDesc_perm (r : Problem) : ∀ l : List Problem, List.Perm (insertDesc r l) (r :: l)
  | [] => List.Perm.refl _
  | e :: rest => by
    rw [insertDesc]
    by_cases h : dateLt r.solve_date e.solve_date = true
    · simp only [h, if_true]
      exact ((insertDesc_perm r rest).cons e).trans (List.Perm.swap r e rest)
    · simp only [h, if_false]
      exact List.Perm.refl _

theorem mem_insertDesc {a r : Problem} {l : List Problem} :
    a ∈ insertDesc r l ↔ a = r ∨ a ∈ l := by
  rw [(insertDesc_perm r l).mem_iff]
  simp

theorem sortDesc_perm : ∀ l : List Problem, List.Perm (sortDesc l) l
  | [] => List.Perm.refl _
  | r :: rest => (insertDesc_perm r (sortDesc rest)).trans ((sortDesc_perm rest).cons r)

theorem mem_sortDesc {a : Problem} {l : List Problem} : a ∈ sortDesc l ↔ a ∈ l :=
  (sortDesc_perm l).mem_iff

theorem pairwise_insertDesc {r : Problem} :
    ∀ {l : List Problem}, (∀ e ∈ l, r.id < e.id) → l.Pairwise outOrder →
      (insertDesc r l).Pairwise outOrder
  | [], _, _ => by simp [insertDesc]
  | e :: rest, hid, h => by
    rw [insertDesc]
    by_cases hlt : dateLt r.solve_date e.solve_date = true
    · simp only [hlt, if_true]
      rcases List.pairwise_cons.mp h with ⟨he, hrest⟩
      refine List.pairwise_cons.mpr ⟨?_, pairwise_insertDesc (fun x hx => hid x (List.mem_cons_of_mem e hx)) hrest⟩
      intro x hx
      rcases mem_insertDesc.mp hx with hx1 | hx1
      · subst hx1
        exact Or.inl hlt
      · exact he x hx1
    · simp only [hlt, if_false]
      refine List.pairwise_cons.mpr ⟨?_, h⟩
      intro x hx
      rcases List.pairwise_cons.mp h with ⟨he, _⟩
      have hre : r.solve_date = e.solve_date ∨ dateLt e.solve_date r.solve_date = true :=
        dateLt_total (by simpa using hlt)
      rcases List.mem_cons.mp hx with hx1 | hx1
      · subst hx1
        rcases hre with h1 | h1
        · exact Or.inr ⟨h1, hid x (List.mem_cons_self x rest)⟩
        · exact Or.inl h1
      · rcases he x hx1 with h2 | h2
        · rcases hre with h1 | h1
          · exact Or.inl (h1 ▸ h2)
          · exact Or.inl (dateLt_trans h2 h1)
        · rcases hre with h1 | h1
          · exact Or.inr ⟨h1.trans h2.1, hid x (List.mem_cons_of_mem e hx1)⟩
          · exact Or.inl (h2.1 ▸ h1)

theorem pairwise_sortDesc :
    ∀ {l : List Problem}, l.Pairwise (fun a b => a.id < b.id) → (sortDesc l).Pairwise outOrder
  | [], _ => by simp [sortDesc]
  | r :: rest, h => by
    rw [sortDesc]
    rcases List.pairwise_cons.mp h with ⟨hr, hrest⟩
    exact pairwise_insertDesc (fun e he => hr e (mem_sortDesc.mp he)) (pairwise_sortDesc hrest)

theorem likeMatchL_literal :
    ∀ (p : List Char), '%' ∉ p → '_' ∉ p →
      ∀ s : List Char, (likeMatchL p s = true ↔ p.map lowerChar = s.map lowerChar)
  | [], _, _, s => by
    cases s <;> simp [likeMatchL]
  | c :: ps, hp, hu, s => by
    have hc1 : c ≠ '%' := fun h => hp (h ▸ List.mem_cons_self c ps)
    have hc2 : c ≠ '_' := fun h => hu (h ▸ List.mem_cons_self c ps)
    have hp1 : '%' ∉ ps := fun h => hp (List.mem_cons_of_mem c h)
    have hu1 : '_' ∉ ps := fun h => hu (List.mem_cons_of_mem c h)
    cases s with
    | nil => simp [likeMatchL, hc1]
    | cons d t =>
      rw [likeMatchL, if_neg hc1]
      simp only [if_neg hc2, Bool.and_eq_true, beq_iff_eq, List.map_cons, List.cons.injEq]
      exact and_congr Iff.rfl (likeMatchL_literal ps hp1 hu1 t)

theorem likeMatchL_percent :
    ∀ (ps s : List Char),
      (likeMatchL ('%' :: ps) s = true ↔ ∃ t₁ t₂, s = t₁ ++ t₂ ∧ likeMatchL ps t₂ = true)
  | ps, [] => by
    rw [likeMatchL, if_pos rfl]
    simp only [Bool.or_false]
    constructor
    · intro h
      exact ⟨[], [], rfl, h⟩
    · rintro ⟨t₁, t₂, h, hm⟩
      rcases List.append_eq_nil.mp h.symm with ⟨h1, h2⟩
      subst h1; subst h2
      exact hm
  | ps, c :: t => by
    rw [likeMatchL, if_pos rfl]
    simp only [Bool.or_eq_true]
    constructor
    · rintro (h | h)
      · exact ⟨[], c :: t, rfl, h⟩
      · rcases (likeMatchL_percent ps t).mp h with ⟨t₁, t₂, ht, hm⟩
        exact ⟨c :: t₁, t₂, by simp [ht], hm⟩
    · rintro ⟨t₁, t₂, ht, hm⟩
      cases t₁ with
      | nil =>
        refine Or.inl ?_
        simp only [List.nil_append] at ht
        rw [← ht] at hm
        exact hm
      | cons d t₁ =>
        simp only [List.cons_append, List.cons.injEq] at ht
        exact Or.inr ((likeMatchL_percent ps t).mpr ⟨t₁, t₂, ht.2, hm⟩)

theorem likeMatchL_literal_percent :
    ∀ (p : List Char), '%' ∉ p → '_' ∉ p →
      ∀ s : List Char,
        (likeMatchL (p ++ ['%']) s = true ↔
          ∃ t₁ t₂, s = t₁ ++ t₂ ∧ p.map lowerChar = t₁.map lowerChar)
  | [], _, _, s => by
    simp only [List.nil_append]
    rw [likeMatchL_percent]
    constructor
    · rintro ⟨t₁, t₂, h, _⟩
      exact ⟨[], s, by simp, by simp⟩
    · rintro ⟨t₁, t₂, h, hm⟩
      exact ⟨s, [], by simp, by simp [likeMatchL]⟩
  | c :: ps, hp, hu, s => by
    have hc1 : c ≠ '%' := fun h => hp (h ▸ List.mem_cons_self c ps)
    have hc2 : c ≠ '_' := fun h => hu (h ▸ List.mem_cons_self c ps)
    have hp1 : '%' ∉ ps := fun h => hp (List.mem_cons_of_mem c h)
    have hu1 : '_' ∉ ps := fun h => hu (List.mem_cons_of_mem c h)
    cases s with
    | nil =>
      rw [List.cons_append, likeMatchL, if_neg hc1]
      constructor
      · intro h
        simp at h
      · rintro ⟨t₁, t₂, h, hm⟩
        rcases List.append_eq_nil.mp h.symm with ⟨h1, h2⟩
        subst h1
        simp at hm
    | cons d t =>
      rw [List.cons_append, likeMatchL, if_neg hc1]
      simp only [if_neg hc2, Bool.and_eq_true, beq_iff_eq]
      constructor
      · rintro ⟨hcd, h⟩
        rcases (likeMatchL_literal_percent ps hp1 hu1 t).mp h with ⟨t₁, t₂, ht, hm⟩
        exact ⟨d :: t₁, t₂, by simp [ht], by simp [hcd, hm]⟩
      · rintro ⟨t₁, t₂, ht, hm⟩
        cases t₁ with
        | nil => simp at hm
        | cons e t₁ =>
          simp only [List.cons_append, List.cons.injEq] at ht
          simp only [List.map_cons, List.cons.injEq] at hm
          rcases ht with ⟨rfl, ht2⟩
          exact ⟨hm.1, (likeMatchL_literal_percent ps hp1 hu1 t).mpr ⟨t₁, t₂, ht2, hm.2⟩⟩

/-- For a filter without SQL `LIKE` wildcards, `topic LIKE '%filter%'` is
exactly ASCII-case-insensitive substring containment. -/
theorem sqlLikeContains_iff_substring {filt cat : String}
    (hp : '%' ∉ filt.data) (hu : '_' ∉ filt.data) :
    sqlLikeContains filt cat = true ↔
      (filt.data.map lowerChar) <:+: (cat.data.map lowerChar) := by
  rw [sqlLikeContains, List.cons_append, likeMatchL_percent]
  constructor
  · rintro ⟨t₁, t₂, h, hm⟩
    rcases (likeMatchL_literal_percent filt.data hp hu t₂).mp hm with ⟨u₁, u₂, hu2, hmap⟩
    subst hu2
    refine ⟨t₁.map lowerChar, u₂.map lowerChar, ?_⟩
    rw [h]
    simp [hmap]
  · rintro ⟨s₁, s₂, h⟩
    have h2 : cat.data.map lowerChar = s₁ ++ (filt.data.map lowerChar ++ s₂) := by
      rw [← h, List.append_assoc]
    rcases List.map_eq_append_iff.mp h2 with ⟨a, bc, hcat, ha, hbc⟩
    rcases List.map_eq_append_iff.mp hbc with ⟨b, c, hbc2, hb, hc⟩
    refine ⟨a, bc, by rw [hcat, hbc2], ?_⟩
    rw [hbc2]
    exact (likeMatchL_literal_percent filt.data hp hu _).mpr ⟨b, c, rfl, hb.symm⟩

theorem lookup_map_pair {α β : Type} [DecidableEq α] (f : α → β) :
    ∀ (l : List α) (a : α), a ∈ l → List.lookup a (l.map (fun x => (x, f x))) = some (f a)
  | [], _, h => absurd h (List.not_mem_nil _)
  | x :: xs, a, h => by
    rw [List.map_cons, List.lookup_cons]
    by_cases hax : a = x
    · subst hax
      simp
    · rw [show (a == x) = false from beq_eq_false_iff_ne.mpr hax]
      exact lookup_map_pair f xs a (List.mem_of_ne_of_mem hax h)

theorem mem_breakdown_keys {rs : List Problem} {d : String} :
    d ∈ (breakdownOf rs).map Prod.fst ↔ d ∈ rs.map (fun r => r.difficulty) := by
  rw [breakdownOf]
  simp only [List.map_map]
  have : (Prod.fst ∘ fun d => (d, rs.countP (fun r => r.difficulty == d))) = id := rfl
  rw [this, List.map_id]
  exact List.mem_dedup

theorem lookup_breakdown {rs : List Problem} {d : String}
    (h : d ∈ rs.map (fun r => r.difficulty)) :
    List.lookup d (breakdownOf rs) = some (rs.countP (fun r => r.difficulty == d)) := by
  rw [breakdownOf]
  exact lookup_map_pair _ _ d (List.mem_dedup.mpr h)

theorem upsertNote_keys (notes : NotesTable) (t c : String) :
    (upsertNote notes t c).map Prod.fst =
      if notes.any (fun p => p.1 == t) then notes.map Prod.fst
      else notes.map Prod.fst ++ [t] := by
  rw [upsertNote]
  by_cases h : notes.any (fun p => p.1 == t) = true
  · rw [if_pos h, if_pos h, List.map_map]
    refine List.map_congr_left ?_
    intro p _
    by_cases hp : p.1 == t
    · simp only [Function.comp_apply, if_pos hp]
      exact (beq_iff_eq.mp hp).symm
    · simp only [Function.comp_apply, if_neg hp]
  · rw [if_neg h, if_neg h]
    simp

theorem upsertNote_nodup {notes : NotesTable} {t c : String}
    (h : (notes.map Prod.fst).Nodup) : ((upsertNote notes t c).map Prod.fst).Nodup := by
  rw [upsertNote_keys]
  by_cases hp : notes.any (fun p => p.1 == t) = true
  · rw [if_pos hp]
    exact h
  · rw [if_neg hp]
    have ht : t ∉ notes.map Prod.fst := by
      intro hmem
      rcases List.mem_map.mp hmem with ⟨p, hpm, hpt⟩
      exact hp (List.any_eq_true.mpr ⟨p, hpm, beq_iff_eq.mpr hpt⟩)
    exact List.nodup_append.mpr ⟨h, List.nodup_singleton t, by simpa using ht⟩

theorem lookup_append_pair :
    ∀ (l : NotesTable) (t c : String), (∀ p ∈ l, (p.1 == t) = false) →
      List.lookup t (l ++ [(t, c)]) = some c
  | [], t, c, _ => by simp [List.lookup_cons]
  | x :: xs, t, c, h => by
    have hx : (x.1 == t) = false := h x (List.mem_cons_self x xs)
    rw [List.cons_append, List.lookup_cons,
      show (t == x.1) = false from beq_eq_false_iff_ne.mpr
        (fun ht => (beq_eq_false_iff_ne.mp hx) ht.symm)]
    exact lookup_append_pair xs t c (fun p hp => h p (List.mem_cons_of_mem x hp))

theorem lookup_replace :
    ∀ (l : NotesTable) (t c : String), (l.any fun p => p.1 == t) = true →
      List.lookup t (l.map (fun p => if p.1 == t then (t, c) else p)) = some c
  | [], _, _, h => by simp at h
  | x :: xs, t, c, h => by
    by_cases hx : (x.1 == t) = true
    · rw [List.map_cons, if_pos hx, List.lookup_cons]
      simp
    · rw [List.map_cons, if_neg hx, List.lookup_cons,
        show (t == x.1) = false from beq_eq_false_iff_ne.mpr
          (fun ht => (beq_eq_false_iff_ne.mp (by simpa using hx)) ht.symm)]
      exact lookup_replace xs t c (by simpa [List.any_cons, hx] using h)

theorem lookup_upsertNote (notes : NotesTable) (t c : String) :
    List.lookup t (upsertNote notes t c) = some c := by
  rw [upsertNote]
  by_cases h : (notes.any fun p => p.1 == t) = true
  · rw [if_pos h]
    exact lookup_replace notes t c h
  · rw [if_neg h]
    refine lookup_append_pair notes t c ?_
    intro p hp
    by_contra hpp
    exact h (List.any_eq_true.mpr ⟨p, hp, by simpa using (Bool.not_eq_false _).mp hpp⟩)

theorem upsertNote_length_of_mem {notes : NotesTable} {t c : String}
    (h : t ∈ notes.map Prod.fst) : (upsertNote notes t c).length = notes.length := by
  have hany : (notes.any fun p => p.1 == t) = true := by
    rcases List.mem_map.mp h with ⟨p, hpm, hpt⟩
    exact List.any_eq_true.mpr ⟨p, hpm, by simpa using hpt⟩
  rw [upsertNote, if_pos hany]
  exact List.length_map _ _

theorem foldl_upsert_nodup :
    ∀ (ops : List (String × String)) (st : NotesTable), (st.map Prod.fst).Nodup →
      (((ops.foldl (fun acc p => upsertNote acc p.1 p.2) st)).map Prod.fst).Nodup
  | [], _, h => h
  | op :: ops, st, h => foldl_upsert_nodup ops (upsertNote st op.1 op.2) (upsertNote_nodup h)

theorem isEmpty_false_of_ne {s : String} (h : s ≠ "") : s.isEmpty = false := by
  rw [← Bool.not_eq_true]
  intro hh
  exact h ((String.isEmpty_iff s).mp hh)

theorem pyOrZero_some (n : Int) : pyOrZero (some n) = n := by
  rw [pyOrZero]
  by_cases h : n = 0
  · rw [if_pos h, h]
  · rw [if_neg h]

theorem lookup_total (rs : List Problem) (today : String) :
    List.lookup "total_solved" (getProgressStats (Except.ok rs) today) =
      some (Val.int (rs.length : Nat)) := by
  rw [getProgressStats, List.lookup_cons]
  simp [pyOrZero_some]

/-- Sample rows used by concrete counterexamples and witnesses. -/
def pEasy : Problem := ⟨1, "Two Sum", "Arrays", "Easy", "2024-01-01"⟩

/-- A second sample row sharing `pEasy`'s date, with a larger id. -/
def pHard : Problem := ⟨2, "Word Ladder", "Graphs", "Hard", "2024-01-01"⟩

/-- A sample row whose difficulty lies outside {Easy, Medium, Hard}. -/
def pOdd : Problem := ⟨1, "Mystery", "Arrays", "Extreme", "2024-01-01"⟩

/-- A sample row whose topic contains no underscore and no space. -/
def pAb : Problem := ⟨1, "Tiny", "Ab", "Easy", "2024-01-01"⟩

/-- The ordering the specification claims for the revision sheet:
descending date with ties in descending id. -/
def claimOrder (a b : Problem) : Prop :=
  dateLt b.solve_date a.solve_date = true ∨
    (a.solve_date = b.solve_date ∧ b.id < a.id)

/-- Claim C1 counterexample: on the empty store the stats response has keys
`total_solved`, `solved_today`, `breakdown` and no `avg_per_day` field at
all, contrary to the claimed summary shape. -/
theorem c1_no_avg_per_day_field :
    "avg_per_day" ∉ (getProgressStats (Except.ok []) "2024-01-02").map Prod.fst := by
  decide

/-- Claim C1 (amended): the stats summary consists exactly of `total_solved`,
`solved_today` and `breakdown` on success (and `status`, `message` on a store
failure); no `avg_per_day` field is computed for any input. -/
theorem c1_stats_summary_fields (rs : List Problem) (e today : String) :
    (getProgressStats (Except.ok rs) today).map Prod.fst =
      ["total_solved", "solved_today", "breakdown"] ∧
    (getProgressStats (Except.error e) today).map Prod.fst = ["status", "message"] :=
  ⟨rfl, rfl⟩

/-- Claim C2 counterexample: with a single Easy record the breakdown has the lone
key `Easy`; the enumerated difficulty `Medium` is absent instead of being
mapped to zero. -/
theorem c2_missing_zero_bucket :
    "Medium" ∉ (breakdownOf [pEasy]).map Prod.fst ∧
    List.lookup "breakdown" (getProgressStats (Except.ok [pEasy]) "2024-01-02") =
      some (Val.obj [("Easy", Val.int 1)]) :=
  ⟨by decide, rfl⟩

/-- Claim C2 (amended): the breakdown contains a key exactly for each difficulty
value observed in the input, mapped to its count; difficulties not observed
— including the enumerated ones — are absent rather than defaulted to 0. -/
theorem c2_breakdown_observed_keys (rs : List Problem) (d : String)
    (h : d ∈ rs.map (fun r => r.difficulty)) :
    d ∈ (breakdownOf rs).map Prod.fst ∧
    List.lookup d (breakdownOf rs) = some (rs.countP (fun r => r.difficulty == d)) ∧
    ∀ k ∈ (breakdownOf rs).map Prod.fst, k ∈ rs.map (fun r => r.difficulty) :=
  ⟨mem_breakdown_keys.mpr h, lookup_breakdown h, fun _ hk => mem_breakdown_keys.mp hk⟩

/-- Witness for C2: instantiated at the one-record store. -/
theorem c2_breakdown_observed_keys_witness :
    "Easy" ∈ (breakdownOf [pEasy]).map Prod.fst ∧
    List.lookup "Easy" (breakdownOf [pEasy]) = some 1 := by
  have h := c2_breakdown_observed_keys [pEasy] "Easy" (by decide)
  exact ⟨h.1, h.2.1.trans (by decide)⟩

/-- Claim C3 counterexample: a record with difficulty `Extreme` is counted in
`total_solved` but `Extreme` DOES appear as a key of the breakdown, contrary
to the claimed exclusion. -/
theorem c3_out_of_set_key_present :
    List.lookup "total_solved" (getProgressStats (Except.ok [pOdd]) "2024-01-02") =
      some (Val.int 1) ∧
    "Extreme" ∈ (breakdownOf [pOdd]).map Prod.fst :=
  ⟨(lookup_total [pOdd] "2024-01-02").trans rfl, by decide⟩

/-- Claim C3 (amended): every record is counted in `total_solved`, and every
record's difficulty — also one outside {Easy, Medium, Hard} — appears as a
key of the breakdown (the GROUP BY buckets all values it sees). -/
theorem c3_counted_and_bucketed (rs : List Problem) (r : Problem) (today : String)
    (h : r ∈ rs) :
    List.lookup "total_solved" (getProgressStats (Except.ok rs) today) =
      some (Val.int (rs.length : Nat)) ∧
    r.difficulty ∈ (breakdownOf rs).map Prod.fst :=
  ⟨lookup_total rs today, mem_breakdown_keys.mpr (List.mem_map_of_mem _ h)⟩

/-- Witness for C3: instantiated at the one-record store with difficulty
`Extreme`. -/
theorem c3_counted_and_bucketed_witness :
    List.lookup "total_solved" (getProgressStats (Except.ok [pOdd]) "2024-01-01") =
      some (Val.int 1) ∧
    pOdd.difficulty ∈ (breakdownOf [pOdd]).map Prod.fst := by
  have h := c3_counted_and_bucketed [pOdd] pOdd "2024-01-01" (by decide)
  exact ⟨h.1.trans rfl, h.2⟩

/-- Claim C4 counterexample: two records sharing a date come back in ascending id
order (1 before 2), not the claimed descending id order; the realised output
violates the claimed tie-break. -/
theorem c4_ascending_ties :
    getRevisionSheetRows [pEasy, pHard] none = [pEasy, pHard] ∧
    pEasy.solve_date = pHard.solve_date ∧ pEasy.id < pHard.id ∧
    ¬ (getRevisionSheetRows [pEasy, pHard] none).Pairwise claimOrder := by
  refine ⟨by decide, by decide, by decide, ?_⟩
  intro h
  rw [show getRevisionSheetRows [pEasy, pHard] none = [pEasy, pHard] from by decide] at h
  have h2 := (List.pairwise_cons.mp h).1 pHard (List.mem_cons_self _ _)
  rcases h2 with h2 | h2
  · exact absurd h2 (by decide)
  · exact absurd h2.2 (by decide)

/-- Claim C4 (amended): for a store whose rows carry strictly increasing ids in
scan order, the list output is ordered descending by `solve_date`, and any
two records with the same date appear in ascending id order (the query has
no id tie-break, so same-day rows surface in scan order); the operation is a
pure function of its input, so repeated runs give the identical ordering. -/
theorem c4_order_desc_date_asc_id (rs : List Problem) (topic : Option String)
    (h : rs.Pairwise (fun a b => a.id < b.id)) :
    (getRevisionSheetRows rs topic).Pairwise outOrder := by
  rcases topic with _ | t
  · exact pairwise_sortDesc h
  · rw [getRevisionSheetRows]
    by_cases ht : t.isEmpty = true
    · rw [if_pos ht]
      exact pairwise_sortDesc h
    · rw [if_neg ht]
      exact pairwise_sortDesc (h.sublist (List.filter_sublist rs))

/-- Witness for C4: instantiated at the two-record same-date store. -/
theorem c4_order_desc_date_asc_id_witness :
    (getRevisionSheetRows [pEasy, pHard] none).Pairwise outOrder :=
  c4_order_desc_date_asc_id [pEasy, pHard] none (by decide)

/-- Claim C5 counterexample: the filter string `_` is a SQL LIKE wildcard: the
record with topic `Ab` is retained although `_` is not a substring of `Ab`
in any case folding, refuting the claimed iff for arbitrary filters. -/
theorem c5_wildcard_escapes_substring :
    pAb ∈ getRevisionSheetRows [pAb] (some "_") ∧
    ¬ (("_".data.map lowerChar) <:+: (pAb.topic.data.map lowerChar)) := by
  constructor
  · rw [show getRevisionSheetRows [pAb] (some "_") = [pAb] from by
      simp [getRevisionSheetRows, sqlLikeContains, likeMatchL, lowerChar, sortDesc, insertDesc,
        pAb, show ("_".isEmpty) = false from rfl]]
    exact List.mem_cons_self _ _
  · decide

/-- Claim C5 (amended): for every non-empty filter containing no LIKE wildcard
(`%` or `_`), a record is retained by the listing operation iff the filter
is an ASCII-case-insensitive substring of its topic; a filter containing a
wildcard is interpreted as a LIKE pattern instead. -/
theorem c5_substring_filter (rs : List Problem) (filt : String) (r : Problem)
    (hne : filt ≠ "") (hp : '%' ∉ filt.data) (hu : '_' ∉ filt.data) :
    r ∈ getRevisionSheetRows rs (some filt) ↔
      r ∈ rs ∧ ((filt.data.map lowerChar) <:+: (r.topic.data.map lowerChar)) := by
  rw [getRevisionSheetRows, if_neg (by rw [isEmpty_false_of_ne hne]; exact Bool.false_ne_true),
    mem_sortDesc, List.mem_filter]
  exact and_congr Iff.rfl (sqlLikeContains_iff_substring hp hu)

/-- Witness for C5: the filter `rr` retains the record with topic `Arrays`. -/
theorem c5_substring_filter_witness :
    pEasy ∈ getRevisionSheetRows [pEasy] (some "rr") :=
  (c5_substring_filter [pEasy] "rr" pEasy (by decide) (by decide) (by decide)).mpr
    ⟨List.mem_cons_self _ _, by decide⟩

/-- Claim C6 counterexample: the listing operation's success response is
`{"problems": [...]}` — it carries no `status` key, so not every operation
returns a machine-readable status field on its success branch. -/
theorem c6_list_success_lacks_status :
    "status" ∉ (getRevisionSheet (Except.ok []) none).map Prod.fst := by
  decide

/-- Claim C6 (amended): every operation catches a store failure and surfaces it as
`{"status": "error", "message": ...}` rather than an unhandled fault; the
add and notes operations also return a `status` key on success, but the
success responses of the list and stats operations carry no status field
(keys `problems`, resp. `total_solved`/`solved_today`/`breakdown`). -/
theorem c6_error_shapes (e title topic difficulty today ntopic content : String)
    (rs : List Problem) (notes : NotesTable) (topicArg : Option String) :
    (addProblem (Except.error e) title topic difficulty today).2 =
      [("status", Val.str "error"), ("message", Val.str e)] ∧
    getRevisionSheet (Except.error e) topicArg =
      [("status", Val.str "error"), ("message", Val.str e)] ∧
    getProgressStats (Except.error e) today =
      [("status", Val.str "error"), ("message", Val.str e)] ∧
    (saveRevisionNote (Except.error e) ntopic content).2 =
      [("status", Val.str "error"), ("message", Val.str e)] ∧
    ((addProblem (Except.ok rs) title topic difficulty today).2).map Prod.fst =
      ["status", "id", "message"] ∧
    ((saveRevisionNote (Except.ok notes) ntopic content).2).map Prod.fst =
      ["status", "message"] ∧
    (getRevisionSheet (Except.ok rs) topicArg).map Prod.fst = ["problems"] ∧
    (getProgressStats (Except.ok rs) today).map Prod.fst =
      ["total_solved", "solved_today", "breakdown"] :=
  ⟨rfl, rfl, rfl, rfl, rfl, rfl, rfl, rfl⟩

/-- Claim C7 counterexample: the whitespace-only filter `" "` is truthy in Python,
so it is used as a LIKE filter: it excludes the record with topic `Arrays`
(which contains no space) instead of returning all records. -/
theorem c7_whitespace_filters :
    getRevisionSheetRows [pEasy] (some " ") = [] ∧
    getRevisionSheetRows [pEasy] none = [pEasy] := by
  constructor
  · simp [getRevisionSheetRows, sqlLikeContains, likeMatchL, lowerChar, sortDesc, pEasy,
      show (" ".isEmpty) = false from rfl]
  · decide

/-- Claim C7 (amended): a missing or empty-string filter is treated as no filter
(all records are returned, sorted); a whitespace-only filter is truthy and
is applied as a LIKE substring filter; in every case the operation returns a
`problems` result, never an error. -/
theorem c7_empty_filter_means_no_filter (rs : List Problem) (t : String)
    (topicArg : Option String) (ht : t ≠ "") :
    getRevisionSheetRows rs none = sortDesc rs ∧
    getRevisionSheetRows rs (some "") = sortDesc rs ∧
    pyTruthy (some "") = false ∧
    pyTruthy (some t) = true ∧
    getRevisionSheetRows rs (some t) =
      sortDesc (rs.filter (fun r => sqlLikeContains t r.topic)) ∧
    (getRevisionSheet (Except.ok rs) topicArg).map Prod.fst = ["problems"] := by
  have hie : t.isEmpty = false := isEmpty_false_of_ne ht
  refine ⟨rfl, rfl, rfl, ?_, ?_, rfl⟩
  · rw [pyTruthy, hie]
    rfl
  · rw [getRevisionSheetRows, if_neg (by rw [hie]; exact Bool.false_ne_true)]

/-- Witness for C7: instantiated at the whitespace filter over a one-record
store. -/
theorem c7_empty_filter_means_no_filter_witness :
    getRevisionSheetRows [pEasy] (some "") = sortDesc [pEasy] ∧
    pyTruthy (some " ") = true ∧
    getRevisionSheetRows [pEasy] (some " ") =
      sortDesc ([pEasy].filter (fun r => sqlLikeContains " " r.topic)) := by
  have h := c7_empty_filter_means_no_filter [pEasy] " " none (by decide)
  exact ⟨h.2.1, h.2.2.2.1, h.2.2.2.2.1⟩

/-- Claim C8: for a notes table with pairwise-distinct topics (the UNIQUE
constraint), an upsert keeps the topics distinct, makes the saved content
the one found for that topic, does not grow the table when the topic was
already present, keeps any sequence of upserts from the empty table
duplicate-free, and the operation returns a `{status, message}` response
whose new store is exactly the upserted table. -/
theorem c8_note_upsert (notes : NotesTable) (t c : String) (ops : List (String × String))
    (h : (notes.map Prod.fst).Nodup) :
    ((upsertNote notes t c).map Prod.fst).Nodup ∧
    List.lookup t (upsertNote notes t c) = some c ∧
    (t ∈ notes.map Prod.fst → (upsertNote notes t c).length = notes.length) ∧
    (((ops.foldl (fun acc p => upsertNote acc p.1 p.2) []).map Prod.fst)).Nodup ∧
    ((saveRevisionNote (Except.ok notes) t c).2).map Prod.fst = ["status", "message"] ∧
    (saveRevisionNote (Except.ok notes) t c).1 = Except.ok (upsertNote notes t c) :=
  ⟨upsertNote_nodup h, lookup_upsertNote notes t c, fun hm => upsertNote_length_of_mem hm,
   foldl_upsert_nodup ops [] List.nodup_nil, rfl, rfl⟩

/-- Witness for C8: overwriting the existing note for `Recursion`. -/
theorem c8_note_upsert_witness :
    ((upsertNote [("Recursion", "old")] "Recursion" "new").map Prod.fst).Nodup ∧
    List.lookup "Recursion" (upsertNote [("Recursion", "old")] "Recursion" "new") =
      some "new" ∧
    (upsertNote [("Recursion", "old")] "Recursion" "new").length = 1 ∧
    ((saveRevisionNote (Except.ok [("Recursion", "old")]) "Recursion" "new").2).map Prod.fst =
      ["status", "message"] := by
  have h := c8_note_upsert [("Recursion", "old")] "Recursion" "new" [] (by decide)
  exact ⟨h.1, h.2.1, (h.2.2.1 (by decide)).trans rfl, h.2.2.2.2.1⟩

/-- Claim C9: the add operation stores the difficulty as Python
`capitalize()` of the argument — on a non-empty ASCII string the first
character upper-cased and every remaining character lower-cased — not the
caller's original string; `easy`, `EASY` and `eAsY` are all stored as
`Easy`. -/
theorem c9_difficulty_capitalized (rs : List Problem) (title topic d today : String)
    (c : Char) (cs : List Char) (h : d.data = c :: cs) :
    (addProblem (Except.ok rs) title topic d today).1 =
      Except.ok (rs ++ [⟨nextId rs, title, topic, pyCapitalize d, today⟩]) ∧
    (pyCapitalize d).data = upperChar c :: cs.map lowerChar ∧
    pyCapitalize "easy" = "Easy" ∧ pyCapitalize "EASY" = "Easy" ∧
    pyCapitalize "eAsY" = "Easy" := by
  refine ⟨rfl, ?_, by decide, by decide, by decide⟩
  rw [pyCapitalize, h]

/-- Witness for C9: adding a problem with difficulty `eAsY` stores `Easy`. -/
theorem c9_difficulty_capitalized_witness :
    (addProblem (Except.ok []) "Two Sum" "Arrays" "eAsY" "2024-01-02").1 =
      Except.ok [(⟨1, "Two Sum", "Arrays", "Easy", "2024-01-02"⟩ : Problem)] ∧
    (pyCapitalize "eAsY").data = upperChar 'e' :: "AsY".data.map lowerChar := by
  have h := c9_difficulty_capitalized [] "Two Sum" "Arrays" "eAsY" "2024-01-02" 'e' "AsY".data rfl
  exact ⟨h.1.trans (congrArg Except.ok (by decide)), h.2.1⟩

/-- Claim C10: on the empty store the stats operation returns `total_solved = 0`
and `solved_today = 0` — the NULL aggregate from the empty SUM is coerced to
0 by `or 0` — and both fields are present integer values, never null or
missing. -/
theorem c10_empty_store_zeroes (today : String) :
    getProgressStats (Except.ok []) today =
      [("total_solved", Val.int 0), ("solved_today", Val.int 0),
       ("breakdown", Val.obj [])] ∧
    pyOrZero none = 0 ∧ sqlSumToday [] today = none :=
  ⟨rfl, rfl, rfl⟩
